import Mathlib

/-!
Shallow embedding of the discovery pipeline of the webswags repository
(package `discovery`, file `discovery.go`), together with theorems about it.
Go strings are modelled as lists of characters (`GoStr`); byte-level UTF-8
details are abstracted away, which preserves lexicographic ordering because
UTF-8 byte order agrees with code-point order.
-/

namespace Webswags

/-- A Go string, modelled as a list of characters. -/
abbrev GoStr := List Char

/-- Models Go `unicode.IsSpace` on the Latin-1 range (the only range the
repository's inputs exercise): `\t`, `\n`, vertical tab, form feed, `\r`,
space, NEL (U+0085) and NBSP (U+00A0). -/
def isSpaceGo (c : Char) : Bool :=
  c == ' ' || c == '\t' || c == '\n' || c == Char.ofNat 11 || c == Char.ofNat 12 ||
    c == '\r' || c == Char.ofNat 0x85 || c == Char.ofNat 0xA0

/-- Models `strings.ReplaceAll(s, old, new)` for single-character `old`/`new`,
which is a character-wise map. -/
def replaceChar (old new : Char) (l : GoStr) : GoStr :=
  l.map (fun c => if c = old then new else c)

/-- Models `strings.Fields`: the maximal runs of non-whitespace characters.
`splitOnP` yields the chunks between whitespace characters (empty chunks for
adjacent separators), and the filter drops the empty chunks. -/
def fields (l : GoStr) : List GoStr :=
  (l.splitOnP isSpaceGo).filter (fun w => !w.isEmpty)

/-- Models `strings.Join(ws, " ")`. -/
def joinWords : List GoStr → GoStr
  | [] => []
  | [w] => w
  | w :: ws => w ++ ' ' :: joinWords ws

/-- ASCII letter test (the caseable characters of the model; same semantics
as `Char.isAlpha`, stated on `Char.toNat` for ease of reasoning). -/
def isLetterGo (c : Char) : Bool :=
  decide ((65 ≤ c.toNat ∧ c.toNat ≤ 90) ∨ (97 ≤ c.toNat ∧ c.toNat ≤ 122))

/-- Worker for `titleCaseGo`: the Boolean records whether the previous
character was a letter (i.e. whether we are inside a word's letter run). -/
def titleWordLoop : Bool → GoStr → GoStr
  | _, [] => []
  | prevLetter, c :: cs =>
    if isLetterGo c then
      (if prevLetter then c.toLower else c.toUpper) :: titleWordLoop true cs
    else c :: titleWordLoop false cs

/-- Models `cases.Title(language.English, cases.Compact).String` on the ASCII
alphabet: the first letter of each maximal letter run is upper-cased and the
following letters of the run are lower-cased; non-letters pass through and
start a new run.  (The library segments words by Unicode rules; on the
space-separated ASCII names produced by `formatServiceName` the behaviours
agree, e.g. `"UserAPI"` becomes `"Userapi"` as the source documents.) -/
def titleCaseGo (l : GoStr) : GoStr :=
  titleWordLoop false l

/-- Models `strings.ToLower` (ASCII range). -/
def toLowerStr (l : GoStr) : GoStr :=
  l.map Char.toLower

/-- Models `strings.TrimSpace`: drop whitespace from both ends. -/
def trimSpace (l : GoStr) : GoStr :=
  ((l.dropWhile isSpaceGo).reverse.dropWhile isSpaceGo).reverse

/-- Embeds `formatServiceName` (discovery.go:451): replace `-` and `_` with
spaces, collapse whitespace runs via Fields/Join, then English title-casing. -/
def formatServiceName (name : GoStr) : GoStr :=
  titleCaseGo (joinWords (fields (replaceChar '_' ' ' (replaceChar '-' ' ' name))))

/-! ### Path helpers (Go `path/filepath` on a Unix separator) -/

/-- The platform path separator (`filepath.Separator` on Unix). -/
def pathSep : Char := '/'

/-- Worker for `cleanGo`: processes the slash-separated segments left to
right, keeping a stack (head = deepest segment) of retained segments.
Empty and `.` segments are dropped; `..` pops a non-`..` segment, is dropped
at the root of a rooted path, and otherwise accumulates. -/
def cleanStack (rooted : Bool) : List GoStr → List GoStr → List GoStr
  | stack, [] => stack.reverse
  | stack, seg :: rest =>
    if seg = [] ∨ seg = ['.'] then cleanStack rooted stack rest
    else if seg = ['.', '.'] then
      match stack with
      | [] => if rooted then cleanStack rooted [] rest else cleanStack rooted [seg] rest
      | top :: stk =>
        if top = ['.', '.'] then cleanStack rooted (seg :: top :: stk) rest
        else cleanStack rooted stk rest
    else cleanStack rooted (seg :: stack) rest

/-- Join path segments with `/`. -/
def joinPath : List GoStr → GoStr
  | [] => []
  | [s] => s
  | s :: ss => s ++ '/' :: joinPath ss

/-- Models `filepath.Clean` (Unix): shortest lexically equivalent path —
collapse repeated separators, drop `.` elements, resolve `..` against
preceding elements, drop leading `..` of a rooted path, no trailing
separator, and `"."` for the empty result. -/
def cleanGo (path : GoStr) : GoStr :=
  if path = [] then ['.']
  else
    let rooted := path.head? = some pathSep
    let segs := path.splitOnP (fun c => c == pathSep)
    let body := joinPath (cleanStack rooted [] segs)
    if rooted then pathSep :: body
    else if body = [] then ['.'] else body

/-- Models `filepath.Base` (Unix): `.` for the empty path, trailing
separators stripped, the part after the last separator, `/` if the path
consists of separators only. -/
def baseGo (path : GoStr) : GoStr :=
  if path = [] then ['.']
  else
    let stripped := (path.reverse.dropWhile (fun c => c == pathSep)).reverse
    if stripped = [] then [pathSep]
    else (stripped.reverse.takeWhile (fun c => c != pathSep)).reverse

/-- Worker for `extGo`: scans the reversed path, collecting characters of the
final element until a dot (return it with the collected tail) or a separator
or the start of the string (no extension). -/
def extLoop : GoStr → GoStr → GoStr
  | _, [] => []
  | acc, c :: cs =>
    if c == pathSep then []
    else if c == '.' then c :: acc
    else extLoop (c :: acc) cs

/-- Models `filepath.Ext`: the suffix starting at the final dot in the final
path element; empty if there is no dot. -/
def extGo (path : GoStr) : GoStr :=
  extLoop [] path.reverse

/-- Models `strings.TrimSuffix`. -/
def trimSuffix (l suf : GoStr) : GoStr :=
  if l.length ≥ suf.length ∧ l.drop (l.length - suf.length) = suf then
    l.take (l.length - suf.length)
  else l

/-! ### deriveName (discovery.go:391) -/

/-- The API-directory marker names of `deriveName` (discovery.go:418). -/
def apiDirNames : List GoStr :=
  ["spec".toList, "specs".toList, "api".toList, "apis".toList,
   "swagger".toList, "openapi".toList, "oas".toList]

/-- The generic directory names skipped by `deriveName` (discovery.go:406). -/
def genericDirs : List GoStr :=
  ["docs".toList, "doc".toList, "documentation".toList, "specifications".toList,
   "specs".toList, ".".toList, "/".toList, "".toList]

/-- Membership in the `genericDirs` block-list. -/
def isGenericDir (s : GoStr) : Bool :=
  genericDirs.contains s

/-- Embeds the strategy-1 loop of `deriveName` (discovery.go:419): walk the
index from its argument down to 1; at an index whose lower-cased segment is
an API-directory marker and whose preceding segment is not generic, return
that preceding segment. -/
def scanApiDirs (parts : List GoStr) : Nat → Option GoStr
  | 0 => none
  | i + 1 =>
    let currentPart := toLowerStr (parts.getD (i + 1) [])
    if apiDirNames.contains currentPart then
      let candidate := parts.getD i []
      if !isGenericDir (toLowerStr candidate) then some candidate
      else scanApiDirs parts i
    else scanApiDirs parts i

/-- Embeds `deriveName` (discovery.go:391): trimmed title if non-empty, else
the segment before an API-directory marker, else a non-generic parent
directory, else the filename without extension — each formatted by
`formatServiceName`. -/
def deriveName (title path : GoStr) : GoStr :=
  let serviceName := trimSpace title
  if serviceName ≠ [] then formatServiceName serviceName
  else
    let cleanPath := cleanGo path
    let pathParts := cleanPath.splitOnP (fun c => c == pathSep)
    let base := baseGo cleanPath
    let filenameNoExt := trimSuffix base (extGo base)
    match scanApiDirs pathParts (pathParts.length - 1) with
    | some candidate => formatServiceName candidate
    | none =>
      if pathParts.length ≥ 2 ∧
          !isGenericDir (toLowerStr (pathParts.getD (pathParts.length - 2) [])) then
        formatServiceName (pathParts.getD (pathParts.length - 2) [])
      else formatServiceName filenameNoExt

/-! ### Format sniffer (discovery.go:258) -/

/-- Embeds `looksLikeJSON` (discovery.go:274): after dropping leading space,
newline, carriage return and tab, the content starts with `{` or `[`. -/
def looksLikeJSON (data : GoStr) : Bool :=
  let trimmed := data.dropWhile (fun c => c == ' ' || c == '\n' || c == '\r' || c == '\t')
  trimmed.head? == some '{' || trimmed.head? == some '['

/-- Embeds `detectFormatFromExtOrContent` (discovery.go:258). -/
def detectFormatFromExtOrContent (path data : GoStr) : GoStr :=
  let ext := toLowerStr (extGo path)
  if ext = ".json".toList then "json".toList
  else if ext = ".yaml".toList ∨ ext = ".yml".toList then "yaml".toList
  else if looksLikeJSON data then "json".toList
  else "yaml".toList

/-! ### Data model (discovery.go:21-108) -/

/-- Embeds the `Contact` leaf type (discovery.go:30). -/
structure Contact where
  name : GoStr
  url : GoStr
  email : GoStr
deriving DecidableEq, Repr

/-- Embeds the `License` leaf type (discovery.go:36). -/
structure License where
  name : GoStr
  url : GoStr
deriving DecidableEq, Repr

/-- Embeds the repository's `Info` projection type (discovery.go:21).  The Go
pointer fields `*Contact`/`*License` become options. -/
structure Info where
  title : GoStr
  version : GoStr
  description : GoStr
  termsOfService : GoStr
  contact : Option Contact
  license : Option License
deriving DecidableEq, Repr

/-- The library-side info block shared by `oas3.Info` and `oas2.Info` (the
fields `toInfoFromOAS3`/`toInfoFromOAS2` read). -/
structure LibInfo where
  title : GoStr
  version : GoStr
  description : GoStr
  termsOfService : GoStr
  contact : Option Contact
  license : Option License
deriving DecidableEq, Repr

/-- An opaque serialized payload: models `json.RawMessage`. -/
abbrev RawMessage := GoStr

/-- The library document returned by the kin-openapi loader (`oas3.T`),
restricted to the fields `parseSwaggerSpec` reads.  The non-info subtrees are
modelled as already-serialized opaque payloads (`json.Marshal` abstracted). -/
structure Oas3T where
  openAPI : GoStr
  info : Option LibInfo
  servers : Option RawMessage
  paths : Option RawMessage
  components : Option RawMessage
  security : Option RawMessage
  tags : Option RawMessage
  externalDocs : Option RawMessage
deriving DecidableEq, Repr

/-- The library document produced by the go-openapi/spec unmarshal
(`oas2.Swagger`), restricted to the fields `parseSwaggerSpec` reads. -/
structure Swg2T where
  swagger : GoStr
  info : Option LibInfo
  host : GoStr
  basePath : GoStr
  schemes : List GoStr
  consumes : List GoStr
  produces : List GoStr
  paths : Option RawMessage
  definitions : Option RawMessage
  parameters : Option RawMessage
  responses : Option RawMessage
  securityDefinitions : Option RawMessage
  security : Option RawMessage
  tags : Option RawMessage
  externalDocs : Option RawMessage
deriving DecidableEq, Repr

/-- Embeds the `OpenAPI3Doc` view (discovery.go:64). -/
structure OpenAPI3Doc where
  openAPI : GoStr
  info : Info
  servers : Option RawMessage
  paths : Option RawMessage
  components : Option RawMessage
  security : Option RawMessage
  tags : Option RawMessage
  externalDocs : Option RawMessage
deriving DecidableEq, Repr

/-- Embeds the `Swagger2Doc` view (discovery.go:45). -/
structure Swagger2Doc where
  swagger : GoStr
  info : Info
  host : GoStr
  basePath : GoStr
  schemes : List GoStr
  consumes : List GoStr
  produces : List GoStr
  paths : Option RawMessage
  definitions : Option RawMessage
  parameters : Option RawMessage
  responses : Option RawMessage
  securityDefinitions : Option RawMessage
  security : Option RawMessage
  tags : Option RawMessage
  externalDocs : Option RawMessage
deriving DecidableEq, Repr

/-- Embeds the unified `SwaggerSpec` container (discovery.go:83): the two
embedded view pointers become options, string fields become `GoStr`, and the
canonical library documents are kept. -/
structure SwaggerSpec where
  swagger2Doc : Option Swagger2Doc
  openAPI3Doc : Option OpenAPI3Doc
  name : GoStr
  title : GoStr
  version : GoStr
  description : GoStr
  path : GoStr
  service : GoStr
  format : GoStr
  fileName : GoStr
  openAPIVersion : GoStr
  swaggerVersion : GoStr
  docV3 : Option Oas3T
  docV2 : Option Swg2T
  raw : GoStr
deriving DecidableEq, Repr

/-- The Go zero value `SwaggerSpec{}`: nil pointers and empty strings. -/
def zeroSwaggerSpec : SwaggerSpec :=
  { swagger2Doc := none, openAPI3Doc := none, name := [], title := [], version := [],
    description := [], path := [], service := [], format := [], fileName := [],
    openAPIVersion := [], swaggerVersion := [], docV3 := none, docV2 := none, raw := [] }

/-- The Go zero value `Info{}`. -/
def zeroInfo : Info :=
  { title := [], version := [], description := [], termsOfService := [],
    contact := none, license := none }

/-- Models `toRaw` (discovery.go:297) with `json.Marshal` abstracted to the
identity on the pre-serialized payload: nil in, empty or `"null"` out → nil. -/
def toRaw (v : Option RawMessage) : Option RawMessage :=
  match v with
  | none => none
  | some b => if b = [] ∨ b = "null".toList then none else some b

/-- Embeds `toInfoFromOAS3` (discovery.go:311): trims the scalar fields and
copies contact/license only when present. -/
def toInfoFromOAS3 (inp : Option LibInfo) : Info :=
  match inp with
  | none => zeroInfo
  | some i =>
    { title := trimSpace i.title, version := trimSpace i.version,
      description := trimSpace i.description, termsOfService := trimSpace i.termsOfService,
      contact := i.contact.map (fun c =>
        { name := trimSpace c.name, email := trimSpace c.email, url := trimSpace c.url }),
      license := i.license.map (fun l =>
        { name := trimSpace l.name, url := trimSpace l.url }) }

/-- Embeds `toInfoFromOAS2` (discovery.go:340): same projection from the
Swagger 2.0 info block. -/
def toInfoFromOAS2 (inp : Option LibInfo) : Info :=
  match inp with
  | none => zeroInfo
  | some i =>
    { title := trimSpace i.title, version := trimSpace i.version,
      description := trimSpace i.description, termsOfService := trimSpace i.termsOfService,
      contact := i.contact.map (fun c =>
        { name := trimSpace c.name, url := trimSpace c.url, email := trimSpace c.email }),
      license := i.license.map (fun l =>
        { name := trimSpace l.name, url := trimSpace l.url }) }

/-! ### parseSwaggerSpec (discovery.go:176) -/

/-- The error outcomes of `parseSwaggerSpec` (spec §7 taxonomy): a read
failure, or a document matching neither schema. -/
inductive ParseErr where
  | ioError
  | notASpecDocument
deriving DecidableEq, Repr

/-- Builds the success record of the OpenAPI 3 branch of `parseSwaggerSpec`
(discovery.go:190-215). -/
def buildSpecV3 (path data : GoStr) (doc3 : Oas3T) : SwaggerSpec :=
  let info := toInfoFromOAS3 doc3.info
  { zeroSwaggerSpec with
    path := path, fileName := baseGo path,
    format := detectFormatFromExtOrContent path data, raw := data,
    docV3 := some doc3, openAPIVersion := trimSpace doc3.openAPI,
    openAPI3Doc := some
      { openAPI := trimSpace doc3.openAPI, info := info,
        servers := toRaw doc3.servers, paths := toRaw doc3.paths,
        components := toRaw doc3.components, security := toRaw doc3.security,
        tags := toRaw doc3.tags, externalDocs := toRaw doc3.externalDocs },
    title := info.title, version := info.version, description := info.description,
    name := deriveName info.title path, service := deriveName info.title path }

/-- Builds the success record of the Swagger 2.0 branch of `parseSwaggerSpec`
(discovery.go:218-248). -/
def buildSpecV2 (path data : GoStr) (doc2 : Swg2T) : SwaggerSpec :=
  let info := toInfoFromOAS2 doc2.info
  { zeroSwaggerSpec with
    path := path, fileName := baseGo path,
    format := detectFormatFromExtOrContent path data, raw := data,
    docV2 := some doc2, swaggerVersion := trimSpace doc2.swagger,
    swagger2Doc := some
      { swagger := trimSpace doc2.swagger, info := info,
        host := doc2.host, basePath := doc2.basePath, schemes := doc2.schemes,
        consumes := doc2.consumes, produces := doc2.produces,
        paths := toRaw doc2.paths, definitions := toRaw doc2.definitions,
        parameters := toRaw doc2.parameters, responses := toRaw doc2.responses,
        securityDefinitions := toRaw doc2.securityDefinitions,
        security := toRaw doc2.security, tags := toRaw doc2.tags,
        externalDocs := toRaw doc2.externalDocs },
    title := info.title, version := info.version, description := info.description,
    name := deriveName info.title path, service := deriveName info.title path }

/-- The Swagger 2.0 fall-through of `parseSwaggerSpec` (discovery.go:218-251):
succeed when the unmarshal succeeds and the trimmed `swagger` marker is
non-empty, otherwise fail with `notASpecDocument` and the zero record. -/
def trySwagger2 (parse2 : GoStr → Option Swg2T) (path data : GoStr) :
    SwaggerSpec × Option ParseErr :=
  match parse2 data with
  | some doc2 =>
    if trimSpace doc2.swagger ≠ [] then (buildSpecV2 path data doc2, none)
    else (zeroSwaggerSpec, some ParseErr.notASpecDocument)
  | none => (zeroSwaggerSpec, some ParseErr.notASpecDocument)

/-- Embeds `parseSwaggerSpec` (discovery.go:176).  `os.ReadFile` is abstracted
to `readResult` (`none` = read error); the kin-openapi loader and the
go-openapi unmarshal are abstracted to the oracles `load3`/`parse2`, where
`none` covers both a returned error and a nil document.  Mirroring Go's
`(SwaggerSpec, error)` pair, the result couples the record with an optional
error. -/
def parseSwaggerSpec (load3 : GoStr → Option Oas3T) (parse2 : GoStr → Option Swg2T)
    (path : GoStr) (readResult : Option GoStr) : SwaggerSpec × Option ParseErr :=
  match readResult with
  | none => (zeroSwaggerSpec, some ParseErr.ioError)
  | some data =>
    match load3 data with
    | some doc3 =>
      if trimSpace doc3.openAPI ≠ [] then (buildSpecV3 path data doc3, none)
      else trySwagger2 parse2 path data
    | none => trySwagger2 parse2 path data

/-! ### DiscoverSwaggerSpecs (discovery.go:129) -/

/-- The accepted spec-file extensions (discovery.go:146). -/
def specFileExts : List GoStr :=
  [".yaml".toList, ".yml".toList, ".json".toList]

/-- The per-file body of the walk in `DiscoverSwaggerSpecs` (discovery.go:144-158):
skip files without an accepted (lower-cased) extension, parse the rest, keep
the successes. -/
def collectSpecs (load3 : GoStr → Option Oas3T) (parse2 : GoStr → Option Swg2T)
    (files : List (GoStr × Option GoStr)) : List SwaggerSpec :=
  files.filterMap (fun f =>
    if specFileExts.contains (toLowerStr (extGo f.1)) then
      match parseSwaggerSpec load3 parse2 f.1 f.2 with
      | (s, none) => some s
      | (_, some _) => none
    else none)

/-- The comparison of the final sort (discovery.go:167-169): Go's
`sort.Slice` with `service i < service j` orders records so that adjacent
services are non-decreasing; we sort by the corresponding `≤`. -/
def serviceLE (a b : SwaggerSpec) : Prop :=
  a.service ≤ b.service

instance : DecidableRel serviceLE :=
  fun a b => inferInstanceAs (Decidable (a.service ≤ b.service))

instance : IsTotal SwaggerSpec serviceLE :=
  ⟨fun a b => le_total a.service b.service⟩

instance : IsTrans SwaggerSpec serviceLE :=
  ⟨fun _ _ _ h h' => le_trans h h'⟩

/-- Embeds `DiscoverSwaggerSpecs` (discovery.go:129) with the directory walk
abstracted to the list of visited regular files paired with their read
outcomes: filter by extension, parse, keep successes, sort ascending by
`service`. -/
def discoverSwaggerSpecs (load3 : GoStr → Option Oas3T) (parse2 : GoStr → Option Swg2T)
    (files : List (GoStr × Option GoStr)) : List SwaggerSpec :=
  List.insertionSort serviceLE (collectSpecs load3 parse2 files)

/-! ### Predicates and sample inputs used by the theorems -/

/-- The OpenAPI 3.x success criterion of `parseSwaggerSpec` (discovery.go:192):
the load returns a non-null document without error and the trimmed `openapi`
marker is non-empty. -/
def oas3Success (load3 : GoStr → Option Oas3T) (data : GoStr) : Prop :=
  ∃ d, load3 data = some d ∧ trimSpace d.openAPI ≠ []

/-- The Swagger 2.0 success criterion of `parseSwaggerSpec` (discovery.go:220):
the unmarshal succeeds and the trimmed `swagger` marker is non-empty. -/
def swagger2Success (parse2 : GoStr → Option Swg2T) (data : GoStr) : Prop :=
  ∃ d, parse2 data = some d ∧ trimSpace d.swagger ≠ []

/-- The spec's content criterion for JSON sniffing (§4.1), stated from the
spec's words: after stripping leading space/tab/CR/LF the first remaining
character is `{` or `[`. -/
def startsJSONAfterStrip (data : GoStr) : Prop :=
  (data.dropWhile (fun c => c == ' ' || c == '\t' || c == '\r' || c == '\n')).head? = some '{' ∨
    (data.dropWhile (fun c => c == ' ' || c == '\t' || c == '\r' || c == '\n')).head? = some '['

/-- A "solid" character: not a space, not a hyphen, not an underscore.  A
string all of whose characters fail this is collapsed to the empty string by
`formatServiceName`. -/
def solidChar (c : Char) : Prop :=
  isSpaceGo c = false ∧ c ≠ '-' ∧ c ≠ '_'

instance : DecidablePred solidChar :=
  fun c => inferInstanceAs (Decidable (isSpaceGo c = false ∧ c ≠ '-' ∧ c ≠ '_'))

/-- A string containing at least one solid character. -/
def hasSolidChar (s : GoStr) : Prop :=
  ∃ c ∈ s, solidChar c

instance : DecidablePred hasSolidChar :=
  fun s => inferInstanceAs (Decidable (∃ c ∈ s, solidChar c))

/-- Sample OpenAPI 3 library document (for witnesses). -/
def sampleOas3 : Oas3T :=
  { openAPI := "3.0.3".toList, info := none, servers := none, paths := none,
    components := none, security := none, tags := none, externalDocs := none }

/-- Sample Swagger 2.0 library document (for witnesses). -/
def sampleSwg2 : Swg2T :=
  { swagger := "2.0".toList, info := none, host := [], basePath := [],
    schemes := [], consumes := [], produces := [], paths := none,
    definitions := none, parameters := none, responses := none,
    securityDefinitions := none, security := none, tags := none, externalDocs := none }

/-- Sample loader oracle that always succeeds with `sampleOas3`. -/
def sampleLoad3 : GoStr → Option Oas3T := fun _ => some sampleOas3

/-- Sample loader oracle that always fails. -/
def failLoad3 : GoStr → Option Oas3T := fun _ => none

/-- Sample Swagger 2.0 oracle that always fails. -/
def failParse2 : GoStr → Option Swg2T := fun _ => none

/-- Sample Swagger 2.0 oracle that always succeeds with `sampleSwg2`. -/
def sampleParse2 : GoStr → Option Swg2T := fun _ => some sampleSwg2

/-- Sample file list (for witnesses). -/
def sampleFiles : List (GoStr × Option GoStr) :=
  [("a.yaml".toList, some "x".toList)]

/-- The record the sample discovery produces. -/
def sampleSpecV3 : SwaggerSpec :=
  buildSpecV3 "a.yaml".toList "x".toList sampleOas3

/-- The OpenAPI 3 view of the sample record. -/
def sampleViewV3 : OpenAPI3Doc :=
  { openAPI := trimSpace sampleOas3.openAPI, info := toInfoFromOAS3 sampleOas3.info,
    servers := toRaw sampleOas3.servers, paths := toRaw sampleOas3.paths,
    components := toRaw sampleOas3.components, security := toRaw sampleOas3.security,
    tags := toRaw sampleOas3.tags, externalDocs := toRaw sampleOas3.externalDocs }

/-! ### Supporting lemmas: character case maps -/

theorem toUpper_cases (c : Char) :
    (Char.toUpper c = c ∧ ¬(97 ≤ c.toNat ∧ c.toNat ≤ 122)) ∨
      ∃ n, c.toNat = n ∧ 97 ≤ n ∧ n ≤ 122 ∧ Char.toUpper c = Char.ofNat (n - 32) := by
  by_cases h : 97 ≤ c.toNat ∧ c.toNat ≤ 122
  · exact Or.inr ⟨c.toNat, rfl, h.1, h.2, by simp only [Char.toUpper]; rw [if_pos h]⟩
  · exact Or.inl ⟨by simp only [Char.toUpper]; rw [if_neg h], h⟩

theorem toLower_cases (c : Char) :
    (Char.toLower c = c ∧ ¬(65 ≤ c.toNat ∧ c.toNat ≤ 90)) ∨
      ∃ n, c.toNat = n ∧ 65 ≤ n ∧ n ≤ 90 ∧ Char.toLower c = Char.ofNat (n + 32) := by
  by_cases h : 65 ≤ c.toNat ∧ c.toNat ≤ 90
  · exact Or.inr ⟨c.toNat, rfl, h.1, h.2, by simp only [Char.toLower]; rw [if_pos h]⟩
  · exact Or.inl ⟨by simp only [Char.toLower]; rw [if_neg h], h⟩

theorem isLetterGo_toUpper (c : Char) : isLetterGo (Char.toUpper c) = isLetterGo c := by
  rcases toUpper_cases c with ⟨h, _⟩ | ⟨n, hcn, h1, h2, h⟩
  · rw [h]
  · rw [h, isLetterGo, isLetterGo, hcn]
    interval_cases n <;> decide

theorem isLetterGo_toLower (c : Char) : isLetterGo (Char.toLower c) = isLetterGo c := by
  rcases toLower_cases c with ⟨h, _⟩ | ⟨n, hcn, h1, h2, h⟩
  · rw [h]
  · rw [h, isLetterGo, isLetterGo, hcn]
    interval_cases n <;> decide

theorem toUpper_toUpper (c : Char) : Char.toUpper (Char.toUpper c) = Char.toUpper c := by
  rcases toUpper_cases c with ⟨h, _⟩ | ⟨n, hcn, h1, h2, h⟩
  · rw [h, h]
  · rw [h]
    interval_cases n <;> decide

theorem toLower_toLower (c : Char) : Char.toLower (Char.toLower c) = Char.toLower c := by
  rcases toLower_cases c with ⟨h, _⟩ | ⟨n, hcn, h1, h2, h⟩
  · rw [h, h]
  · rw [h]
    interval_cases n <;> decide

/-- The characters produced by the ASCII case maps keep the "solid" character
properties used below: not a space, not a hyphen, not an underscore. -/
theorem toUpper_preserves (c : Char) (P : Char → Prop)
    (hid : P c) (hrange : ∀ n, 65 ≤ n → n ≤ 90 → P (Char.ofNat n)) :
    P (Char.toUpper c) := by
  rcases toUpper_cases c with ⟨h, _⟩ | ⟨n, _, h1, h2, h⟩
  · rwa [h]
  · rw [h]; exact hrange (n - 32) (by omega) (by omega)

theorem toLower_preserves (c : Char) (P : Char → Prop)
    (hid : P c) (hrange : ∀ n, 97 ≤ n → n ≤ 122 → P (Char.ofNat n)) :
    P (Char.toLower c) := by
  rcases toLower_cases c with ⟨h, _⟩ | ⟨n, _, h1, h2, h⟩
  · rwa [h]
  · rw [h]; exact hrange (n + 32) (by omega) (by omega)

theorem ofNat_upper_solid (n : Nat) (h1 : 65 ≤ n) (h2 : n ≤ 90) :
    isSpaceGo (Char.ofNat n) = false ∧ Char.ofNat n ≠ '-' ∧ Char.ofNat n ≠ '_' := by
  interval_cases n <;> decide

theorem ofNat_lower_solid (n : Nat) (h1 : 97 ≤ n) (h2 : n ≤ 122) :
    isSpaceGo (Char.ofNat n) = false ∧ Char.ofNat n ≠ '-' ∧ Char.ofNat n ≠ '_' := by
  interval_cases n <;> decide

/-! ### Supporting lemmas: trimming -/

theorem dropWhile_head_not (p : α → Bool) (l : List α) (c : α)
    (h : (l.dropWhile p).head? = some c) : p c = false := by
  induction l with
  | nil => simp at h
  | cons a l ih =>
    rw [List.dropWhile_cons] at h
    by_cases hpa : p a = true
    · rw [if_pos hpa] at h; exact ih h
    · simp only [Bool.not_eq_true] at hpa
      rw [if_neg (by simp [hpa])] at h
      simp only [List.head?_cons, Option.some.injEq] at h
      subst h
      exact hpa

theorem dropWhile_eq_self_of_head (p : α → Bool) (l : List α)
    (h : ∀ c, l.head? = some c → p c = false) : l.dropWhile p = l := by
  cases l with
  | nil => rfl
  | cons a l => rw [List.dropWhile_cons, h a rfl]; simp

theorem trimSpace_idem (l : GoStr) : trimSpace (trimSpace l) = trimSpace l := by
  unfold trimSpace
  set A := l.dropWhile isSpaceGo with hA
  set B := A.reverse.dropWhile isSpaceGo with hB
  have hBrevA : ∃ t, B.reverse ++ t = A := by
    obtain ⟨t, ht⟩ : ∃ t, t ++ B = A.reverse := hB ▸ A.reverse.dropWhile_suffix isSpaceGo
    refine ⟨t.reverse, ?_⟩
    have := congrArg List.reverse ht
    rwa [List.reverse_append, List.reverse_reverse] at this
  have h1 : B.reverse.dropWhile isSpaceGo = B.reverse := by
    refine dropWhile_eq_self_of_head _ _ (fun c hc => ?_)
    have hcA : A.head? = some c := by
      obtain ⟨t, ht⟩ := hBrevA
      cases hrv : B.reverse with
      | nil => rw [hrv] at hc; simp at hc
      | cons x xs =>
        rw [hrv] at hc
        simp only [List.head?_cons, Option.some.injEq] at hc
        rw [← ht, hrv, List.cons_append, List.head?_cons, hc]
    exact dropWhile_head_not _ _ _ (hA ▸ hcA)
  have h2 : B.dropWhile isSpaceGo = B := by
    refine dropWhile_eq_self_of_head _ _ (fun c hc => ?_)
    exact dropWhile_head_not _ _ _ (hB ▸ hc)
  rw [h1, List.reverse_reverse, h2]

/-! ### Supporting lemmas: splitOnP, fields, joinWords -/

theorem mem_of_mem_splitOnP (p : Char → Bool) :
    ∀ (l : GoStr) (w : GoStr), w ∈ l.splitOnP p → ∀ c ∈ w, c ∈ l := by
  intro l
  induction l with
  | nil =>
    intro w hw c hc
    rw [List.splitOnP_nil] at hw
    simp at hw
    subst hw
    simp at hc
  | cons a l ih =>
    intro w hw c hc
    rw [List.splitOnP_cons] at hw
    by_cases hpa : p a = true
    · rw [if_pos hpa] at hw
      rcases List.mem_cons.mp hw with h | h
      · subst h; simp at hc
      · exact List.mem_cons_of_mem a (ih w h c hc)
    · rw [if_neg hpa] at hw
      obtain ⟨h, t, hht⟩ : ∃ h t, l.splitOnP p = h :: t := by
        cases hsp : l.splitOnP p with
        | nil => exact absurd hsp (List.splitOnP_ne_nil p l)
        | cons h t => exact ⟨h, t, rfl⟩
      rw [hht] at hw
      simp only [List.modifyHead] at hw
      rcases List.mem_cons.mp hw with h1 | h1
      · subst h1
        rcases List.mem_cons.mp hc with h2 | h2
        · rw [h2]; exact List.mem_cons_self a l
        · exact List.mem_cons_of_mem a (ih h (hht ▸ List.mem_cons_self h t) c h2)
      · exact List.mem_cons_of_mem a (ih w (hht ▸ List.mem_cons_of_mem h h1) c hc)

theorem not_sep_of_mem_splitOnP (p : Char → Bool) :
    ∀ (l : GoStr) (w : GoStr), w ∈ l.splitOnP p → ∀ c ∈ w, p c = false := by
  intro l
  induction l with
  | nil =>
    intro w hw c hc
    rw [List.splitOnP_nil] at hw
    simp at hw
    subst hw
    simp at hc
  | cons a l ih =>
    intro w hw c hc
    rw [List.splitOnP_cons] at hw
    by_cases hpa : p a = true
    · rw [if_pos hpa] at hw
      rcases List.mem_cons.mp hw with h | h
      · subst h; simp at hc
      · exact ih w h c hc
    · rw [if_neg hpa] at hw
      obtain ⟨h, t, hht⟩ : ∃ h t, l.splitOnP p = h :: t := by
        cases hsp : l.splitOnP p with
        | nil => exact absurd hsp (List.splitOnP_ne_nil p l)
        | cons h t => exact ⟨h, t, rfl⟩
      rw [hht] at hw
      simp only [List.modifyHead] at hw
      rcases List.mem_cons.mp hw with h1 | h1
      · subst h1
        rcases List.mem_cons.mp hc with h2 | h2
        · subst h2; simpa using hpa
        · exact ih h (hht ▸ List.mem_cons_self h t) c h2
      · exact ih w (hht ▸ List.mem_cons_of_mem h h1) c hc

theorem mem_fields_spec (l : GoStr) (w : GoStr) (hw : w ∈ fields l) :
    w ≠ [] ∧ ∀ c ∈ w, isSpaceGo c = false ∧ c ∈ l := by
  unfold fields at hw
  obtain ⟨hmem, hne⟩ := List.mem_filter.mp hw
  refine ⟨by simpa using hne, fun c hc => ?_⟩
  exact ⟨not_sep_of_mem_splitOnP isSpaceGo l w hmem c hc,
    mem_of_mem_splitOnP isSpaceGo l w hmem c hc⟩

theorem fields_ne_nil (l : GoStr) (c : Char) (hc : c ∈ l) (hns : isSpaceGo c = false) :
    fields l ≠ [] := by
  induction l with
  | nil => simp at hc
  | cons a l ih =>
    unfold fields
    rw [List.splitOnP_cons]
    by_cases hpa : isSpaceGo a = true
    · rw [if_pos hpa]
      have hcl : c ∈ l := by
        rcases List.mem_cons.mp hc with h | h
        · subst h; rw [hpa] at hns; cases hns
        · exact h
      have := ih hcl
      unfold fields at this
      simpa using this
    · rw [if_neg hpa]
      obtain ⟨h, t, hht⟩ : ∃ h t, l.splitOnP isSpaceGo = h :: t := by
        cases hsp : l.splitOnP isSpaceGo with
        | nil => exact absurd hsp (List.splitOnP_ne_nil isSpaceGo l)
        | cons h t => exact ⟨h, t, rfl⟩
      rw [hht]
      simp [List.filter_cons]

theorem fields_append_word (w : GoStr) (hw : w ≠ [])
    (hsolid : ∀ c ∈ w, isSpaceGo c = false) (t : GoStr) :
    fields (w ++ ' ' :: t) = w :: fields t := by
  unfold fields
  rw [List.splitOnP_first isSpaceGo w (fun c hc => by simp [hsolid c hc]) ' ' (by decide) t]
  simp [List.filter_cons, hw]

theorem fields_single_word (w : GoStr) (hw : w ≠ [])
    (hsolid : ∀ c ∈ w, isSpaceGo c = false) : fields w = [w] := by
  unfold fields
  rw [List.splitOnP_eq_single isSpaceGo w (fun c hc => by simp [hsolid c hc])]
  simp [List.filter_cons, hw]

theorem fields_joinWords :
    ∀ ws : List GoStr, (∀ w ∈ ws, w ≠ [] ∧ ∀ c ∈ w, isSpaceGo c = false) →
      fields (joinWords ws) = ws := by
  intro ws
  induction ws with
  | nil => intro _; decide
  | cons w ws ih =>
    intro h
    cases ws with
    | nil =>
      show fields w = [w]
      exact fields_single_word w (h w (by simp)).1 (h w (by simp)).2
    | cons v ws' =>
      rw [show joinWords (w :: v :: ws') = w ++ ' ' :: joinWords (v :: ws') from rfl]
      rw [fields_append_word w (h w (by simp)).1 (h w (by simp)).2]
      rw [ih (fun u hu => h u (List.mem_cons_of_mem w hu))]

theorem mem_joinWords :
    ∀ (ws : List GoStr) (c : Char), c ∈ joinWords ws → c = ' ' ∨ ∃ w ∈ ws, c ∈ w := by
  intro ws
  induction ws with
  | nil => intro c hc; simp [joinWords] at hc
  | cons w ws ih =>
    intro c hc
    cases ws with
    | nil =>
      right
      exact ⟨w, by simp, hc⟩
    | cons v ws' =>
      rw [show joinWords (w :: v :: ws') = w ++ ' ' :: joinWords (v :: ws') from rfl] at hc
      rcases List.mem_append.mp hc with h | h
      · exact Or.inr ⟨w, by simp, h⟩
      · rcases List.mem_cons.mp h with h1 | h1
        · exact Or.inl h1
        · rcases ih c h1 with h2 | ⟨u, hu, hcu⟩
          · exact Or.inl h2
          · exact Or.inr ⟨u, List.mem_cons_of_mem w hu, hcu⟩

theorem joinWords_ne_nil (ws : List GoStr) (hne : ws ≠ []) (hw : ∀ w ∈ ws, w ≠ []) :
    joinWords ws ≠ [] := by
  cases ws with
  | nil => exact absurd rfl hne
  | cons w ws =>
    cases ws with
    | nil => exact hw w (by simp)
    | cons v ws' =>
      rw [show joinWords (w :: v :: ws') = w ++ ' ' :: joinWords (v :: ws') from rfl]
      simp [hw w (by simp)]

/-! ### Supporting lemmas: titleWordLoop -/

theorem titleWordLoop_cons (b : Bool) (c : Char) (cs : GoStr) :
    titleWordLoop b (c :: cs) =
      if isLetterGo c then (if b then c.toLower else c.toUpper) :: titleWordLoop true cs
      else c :: titleWordLoop false cs := rfl

theorem titleWordLoop_length : ∀ (l : GoStr) (b : Bool), (titleWordLoop b l).length = l.length := by
  intro l
  induction l with
  | nil => intro b; rfl
  | cons c cs ih =>
    intro b
    rw [titleWordLoop_cons]
    by_cases h : isLetterGo c = true
    · rw [if_pos h]; simp [ih true]
    · rw [if_neg h]; simp [ih false]

theorem mem_titleWordLoop :
    ∀ (l : GoStr) (b : Bool) (x : Char), x ∈ titleWordLoop b l →
      ∃ c ∈ l, x = c ∨ x = Char.toUpper c ∨ x = Char.toLower c := by
  intro l
  induction l with
  | nil => intro b x hx; simp [titleWordLoop] at hx
  | cons c cs ih =>
    intro b x hx
    rw [titleWordLoop_cons] at hx
    by_cases h : isLetterGo c = true
    · rw [if_pos h] at hx
      rcases List.mem_cons.mp hx with h1 | h1
      · cases b with
        | true => exact ⟨c, by simp, Or.inr (Or.inr (by simpa using h1))⟩
        | false => exact ⟨c, by simp, Or.inr (Or.inl (by simpa using h1))⟩
      · obtain ⟨d, hd, hcase⟩ := ih true x h1
        exact ⟨d, List.mem_cons_of_mem c hd, hcase⟩
    · rw [if_neg h] at hx
      rcases List.mem_cons.mp hx with h1 | h1
      · exact ⟨c, by simp, Or.inl h1⟩
      · obtain ⟨d, hd, hcase⟩ := ih false x h1
        exact ⟨d, List.mem_cons_of_mem c hd, hcase⟩

theorem solidChar_toUpper (c : Char) (h : solidChar c) : solidChar (Char.toUpper c) :=
  toUpper_preserves c solidChar h
    (fun n h1 h2 =>
      ⟨(ofNat_upper_solid n h1 h2).1, (ofNat_upper_solid n h1 h2).2.1,
        (ofNat_upper_solid n h1 h2).2.2⟩)

theorem solidChar_toLower (c : Char) (h : solidChar c) : solidChar (Char.toLower c) :=
  toLower_preserves c solidChar h
    (fun n h1 h2 =>
      ⟨(ofNat_lower_solid n h1 h2).1, (ofNat_lower_solid n h1 h2).2.1,
        (ofNat_lower_solid n h1 h2).2.2⟩)

theorem titleWordLoop_solid (l : GoStr) (b : Bool) (h : ∀ c ∈ l, solidChar c) :
    ∀ x ∈ titleWordLoop b l, solidChar x := by
  intro x hx
  obtain ⟨c, hc, hcase⟩ := mem_titleWordLoop l b x hx
  rcases hcase with h1 | h1 | h1
  · exact h1 ▸ h c hc
  · exact h1 ▸ solidChar_toUpper c (h c hc)
  · exact h1 ▸ solidChar_toLower c (h c hc)

theorem titleWordLoop_idem : ∀ (l : GoStr) (b : Bool),
    titleWordLoop b (titleWordLoop b l) = titleWordLoop b l := by
  intro l
  induction l with
  | nil => intro b; rfl
  | cons c cs ih =>
    intro b
    by_cases h : isLetterGo c = true
    · have hc' : isLetterGo (if b then c.toLower else c.toUpper) = true := by
        cases b with
        | true => simpa [isLetterGo_toLower] using h
        | false => simpa [isLetterGo_toUpper] using h
      rw [titleWordLoop_cons, if_pos h, titleWordLoop_cons, if_pos hc', ih true]
      congr 1
      cases b with
      | true => simp [toLower_toLower]
      | false => simp [toUpper_toUpper]
    · rw [titleWordLoop_cons, if_neg h, titleWordLoop_cons, if_neg h, ih false]

theorem titleWordLoop_append_space :
    ∀ (xs : GoStr) (b : Bool) (ys : GoStr),
      titleWordLoop b (xs ++ ' ' :: ys) = titleWordLoop b xs ++ ' ' :: titleWordLoop false ys := by
  intro xs
  induction xs with
  | nil =>
    intro b ys
    show titleWordLoop b (' ' :: ys) = ' ' :: titleWordLoop false ys
    rw [titleWordLoop_cons, if_neg (by decide)]
  | cons c cs ih =>
    intro b ys
    by_cases h : isLetterGo c = true
    · rw [List.cons_append, titleWordLoop_cons, if_pos h, titleWordLoop_cons, if_pos h,
        ih true, List.cons_append]
    · rw [List.cons_append, titleWordLoop_cons, if_neg h, titleWordLoop_cons, if_neg h,
        ih false, List.cons_append]

theorem titleCaseGo_joinWords :
    ∀ ws : List GoStr, titleCaseGo (joinWords ws) = joinWords (ws.map (titleWordLoop false)) := by
  intro ws
  induction ws with
  | nil => rfl
  | cons w ws ih =>
    cases ws with
    | nil => rfl
    | cons v ws' =>
      show titleWordLoop false (w ++ ' ' :: joinWords (v :: ws')) =
        titleWordLoop false w ++ ' ' :: joinWords ((v :: ws').map (titleWordLoop false))
      rw [titleWordLoop_append_space]
      congr 2

/-! ### Supporting lemmas: replaceChar -/

theorem replaceChar_eq_self (old new : Char) (l : GoStr) (h : ∀ c ∈ l, c ≠ old) :
    replaceChar old new l = l := by
  unfold replaceChar
  have : l.map (fun c => if c = old then new else c) = l.map id :=
    List.map_congr_left (fun c hc => by simp [h c hc])
  rw [this, List.map_id]

theorem mem_replaceChar (old new : Char) (l : GoStr) (c : Char)
    (hc : c ∈ replaceChar old new l) : c = new ∨ (c ∈ l ∧ c ≠ old) := by
  unfold replaceChar at hc
  obtain ⟨a, ha, hac⟩ := List.mem_map.mp hc
  by_cases h : a = old
  · rw [if_pos h] at hac; exact Or.inl hac.symm
  · rw [if_neg h] at hac; exact Or.inr ⟨hac ▸ ha, hac ▸ h⟩

/-! ### Supporting lemmas: parseSwaggerSpec case analysis -/

theorem parseSwaggerSpec_oas3 (load3 : GoStr → Option Oas3T) (parse2 : GoStr → Option Swg2T)
    (path data : GoStr) (doc3 : Oas3T) (hl : load3 data = some doc3)
    (hm : trimSpace doc3.openAPI ≠ []) :
    parseSwaggerSpec load3 parse2 path (some data) = (buildSpecV3 path data doc3, none) := by
  simp only [parseSwaggerSpec, hl]
  rw [if_pos hm]

theorem parseSwaggerSpec_fail3 (load3 : GoStr → Option Oas3T) (parse2 : GoStr → Option Swg2T)
    (path data : GoStr) (h : ¬ oas3Success load3 data) :
    parseSwaggerSpec load3 parse2 path (some data) = trySwagger2 parse2 path data := by
  cases hl : load3 data with
  | none => simp only [parseSwaggerSpec, hl]
  | some d =>
    have hm : ¬ trimSpace d.openAPI ≠ [] := fun hm => h ⟨d, hl, hm⟩
    simp only [parseSwaggerSpec, hl]
    rw [if_neg hm]

theorem trySwagger2_ok (parse2 : GoStr → Option Swg2T) (path data : GoStr) (doc2 : Swg2T)
    (hp : parse2 data = some doc2) (hm : trimSpace doc2.swagger ≠ []) :
    trySwagger2 parse2 path data = (buildSpecV2 path data doc2, none) := by
  simp only [trySwagger2, hp]
  rw [if_pos hm]

theorem trySwagger2_fail (parse2 : GoStr → Option Swg2T) (path data : GoStr)
    (h : ¬ swagger2Success parse2 data) :
    trySwagger2 parse2 path data = (zeroSwaggerSpec, some ParseErr.notASpecDocument) := by
  cases hp : parse2 data with
  | none => simp only [trySwagger2, hp]
  | some d =>
    have hm : ¬ trimSpace d.swagger ≠ [] := fun hm => h ⟨d, hp, hm⟩
    simp only [trySwagger2, hp]
    rw [if_neg hm]

/-- Any successful parse produces either the OpenAPI 3 record or the
Swagger 2.0 record. -/
theorem parseSwaggerSpec_success_cases (load3 : GoStr → Option Oas3T)
    (parse2 : GoStr → Option Swg2T) (path : GoStr) (readResult : Option GoStr)
    (spec : SwaggerSpec)
    (h : parseSwaggerSpec load3 parse2 path readResult = (spec, none)) :
    ∃ data, readResult = some data ∧
      ((∃ doc3, spec = buildSpecV3 path data doc3) ∨ ∃ doc2, spec = buildSpecV2 path data doc2) := by
  cases readResult with
  | none => simp [parseSwaggerSpec] at h
  | some data =>
    refine ⟨data, rfl, ?_⟩
    by_cases h3 : oas3Success load3 data
    · obtain ⟨d, hl, hm⟩ := h3
      rw [parseSwaggerSpec_oas3 load3 parse2 path data d hl hm] at h
      exact Or.inl ⟨d, (Prod.mk.injEq _ _ _ _ ▸ h).1.symm⟩
    · rw [parseSwaggerSpec_fail3 load3 parse2 path data h3] at h
      by_cases h2 : swagger2Success parse2 data
      · obtain ⟨d, hp, hm⟩ := h2
        rw [trySwagger2_ok parse2 path data d hp hm] at h
        exact Or.inr ⟨d, (Prod.mk.injEq _ _ _ _ ▸ h).1.symm⟩
      · rw [trySwagger2_fail parse2 path data h2] at h
        simp at h

theorem buildSpecV3_views (path data : GoStr) (doc3 : Oas3T) :
    (buildSpecV3 path data doc3).openAPI3Doc.isSome = true ∧
      (buildSpecV3 path data doc3).swagger2Doc = none := by
  simp [buildSpecV3, zeroSwaggerSpec]

theorem buildSpecV2_views (path data : GoStr) (doc2 : Swg2T) :
    (buildSpecV2 path data doc2).swagger2Doc.isSome = true ∧
      (buildSpecV2 path data doc2).openAPI3Doc = none := by
  simp [buildSpecV2, zeroSwaggerSpec]

theorem buildSpecV3_openAPI3Doc_info (path data : GoStr) (doc3 : Oas3T) :
    ∃ v, (buildSpecV3 path data doc3).openAPI3Doc = some v ∧
      v.info = toInfoFromOAS3 doc3.info ∧
      (buildSpecV3 path data doc3).docV3 = some doc3 :=
  ⟨_, rfl, rfl, rfl⟩

theorem buildSpecV2_swagger2Doc_info (path data : GoStr) (doc2 : Swg2T) :
    ∃ w, (buildSpecV2 path data doc2).swagger2Doc = some w ∧
      w.info = toInfoFromOAS2 doc2.info ∧
      (buildSpecV2 path data doc2).docV2 = some doc2 :=
  ⟨_, rfl, rfl, rfl⟩

/-! ### Supporting lemmas: info projection -/

theorem toInfoFromOAS3_spec (inp : Option LibInfo) :
    trimSpace (toInfoFromOAS3 inp).title = (toInfoFromOAS3 inp).title ∧
    trimSpace (toInfoFromOAS3 inp).version = (toInfoFromOAS3 inp).version ∧
    trimSpace (toInfoFromOAS3 inp).description = (toInfoFromOAS3 inp).description ∧
    ((inp.bind (fun i => i.contact)) = none → (toInfoFromOAS3 inp).contact = none) ∧
    ((inp.bind (fun i => i.license)) = none → (toInfoFromOAS3 inp).license = none) := by
  cases inp with
  | none => exact ⟨rfl, rfl, rfl, fun _ => rfl, fun _ => rfl⟩
  | some i =>
    refine ⟨trimSpace_idem _, trimSpace_idem _, trimSpace_idem _, ?_, ?_⟩
    · intro h
      have h' : i.contact = none := by simpa using h
      simp [toInfoFromOAS3, h']
    · intro h
      have h' : i.license = none := by simpa using h
      simp [toInfoFromOAS3, h']

theorem toInfoFromOAS2_spec (inp : Option LibInfo) :
    trimSpace (toInfoFromOAS2 inp).title = (toInfoFromOAS2 inp).title ∧
    trimSpace (toInfoFromOAS2 inp).version = (toInfoFromOAS2 inp).version ∧
    trimSpace (toInfoFromOAS2 inp).description = (toInfoFromOAS2 inp).description ∧
    ((inp.bind (fun i => i.contact)) = none → (toInfoFromOAS2 inp).contact = none) ∧
    ((inp.bind (fun i => i.license)) = none → (toInfoFromOAS2 inp).license = none) := by
  cases inp with
  | none => exact ⟨rfl, rfl, rfl, fun _ => rfl, fun _ => rfl⟩
  | some i =>
    refine ⟨trimSpace_idem _, trimSpace_idem _, trimSpace_idem _, ?_, ?_⟩
    · intro h
      have h' : i.contact = none := by simpa using h
      simp [toInfoFromOAS2, h']
    · intro h
      have h' : i.license = none := by simpa using h
      simp [toInfoFromOAS2, h']

/-! ### Claims -/

/-- Claim C3: `parseSwaggerSpec` attempts the OpenAPI 3.x load first (success =
load returns a document and the trimmed `openapi` marker is non-empty); on
that success the result does not depend on the Swagger 2.0 oracle at all (no
Swagger 2.0 attempt is made) and the parse succeeds with the OpenAPI 3 view;
and it fails with `notASpecDocument` exactly when neither the OpenAPI 3.x
criterion nor the Swagger 2.0 criterion holds. -/
theorem C3_parse_order_and_failure (load3 : GoStr → Option Oas3T)
    (parse2 parse2' : GoStr → Option Swg2T) (path data : GoStr) :
    (oas3Success load3 data →
      parseSwaggerSpec load3 parse2 path (some data) =
        parseSwaggerSpec load3 parse2' path (some data) ∧
      (parseSwaggerSpec load3 parse2 path (some data)).1.openAPI3Doc.isSome = true ∧
      (parseSwaggerSpec load3 parse2 path (some data)).2 = none) ∧
    ((parseSwaggerSpec load3 parse2 path (some data)).2 = some ParseErr.notASpecDocument ↔
      ¬ oas3Success load3 data ∧ ¬ swagger2Success parse2 data) := by
  constructor
  · rintro ⟨d, hl, hm⟩
    rw [parseSwaggerSpec_oas3 load3 parse2 path data d hl hm,
      parseSwaggerSpec_oas3 load3 parse2' path data d hl hm]
    exact ⟨rfl, (buildSpecV3_views path data d).1, rfl⟩
  · constructor
    · intro herr
      by_cases h3 : oas3Success load3 data
      · obtain ⟨d, hl, hm⟩ := h3
        rw [parseSwaggerSpec_oas3 load3 parse2 path data d hl hm] at herr
        simp at herr
      · refine ⟨h3, fun h2 => ?_⟩
        obtain ⟨d, hp, hm⟩ := h2
        rw [parseSwaggerSpec_fail3 load3 parse2 path data h3,
          trySwagger2_ok parse2 path data d hp hm] at herr
        simp at herr
    · rintro ⟨h3, h2⟩
      rw [parseSwaggerSpec_fail3 load3 parse2 path data h3, trySwagger2_fail parse2 path data h2]

/-- Witness for C3 at concrete inputs: with a loader that succeeds with an
OpenAPI 3.0.3 document, the parse result is the same whatever the Swagger 2.0
oracle does. -/
theorem C3_parse_order_and_failure_witness :
    parseSwaggerSpec sampleLoad3 failParse2 "a.yaml".toList (some "x".toList) =
      parseSwaggerSpec sampleLoad3 sampleParse2 "a.yaml".toList (some "x".toList) :=
  ((C3_parse_order_and_failure sampleLoad3 failParse2 sampleParse2 "a.yaml".toList
    "x".toList).1 ⟨sampleOas3, rfl, by decide⟩).1

/-- Claim C9: when `parseSwaggerSpec` fails (read error or neither schema matches),
the record it returns alongside the error is the zero-value `SwaggerSpec`:
no partially populated record escapes on the error branch. -/
theorem C9_parse_error_returns_zero (load3 : GoStr → Option Oas3T)
    (parse2 : GoStr → Option Swg2T) (path : GoStr) (readResult : Option GoStr)
    (h : (parseSwaggerSpec load3 parse2 path readResult).2 ≠ none) :
    (parseSwaggerSpec load3 parse2 path readResult).1 = zeroSwaggerSpec := by
  cases readResult with
  | none => rfl
  | some data =>
    by_cases h3 : oas3Success load3 data
    · obtain ⟨d, hl, hm⟩ := h3
      rw [parseSwaggerSpec_oas3 load3 parse2 path data d hl hm] at h ⊢
      exact absurd rfl h
    · rw [parseSwaggerSpec_fail3 load3 parse2 path data h3] at h ⊢
      by_cases h2 : swagger2Success parse2 data
      · obtain ⟨d, hp, hm⟩ := h2
        rw [trySwagger2_ok parse2 path data d hp hm] at h ⊢
        exact absurd rfl h
      · rw [trySwagger2_fail parse2 path data h2]

/-- Witness for C9: a read failure yields exactly the zero record. -/
theorem C9_parse_error_returns_zero_witness :
    (parseSwaggerSpec failLoad3 failParse2 "a.yaml".toList none).1 = zeroSwaggerSpec :=
  C9_parse_error_returns_zero failLoad3 failParse2 "a.yaml".toList none (by decide)

/-- Claim C7: every record produced by a successful parse — in both the OpenAPI 3
branch and the Swagger 2.0 branch — has `service` equal to `name`; both are
assigned `deriveName(title, path)` on the same inputs. -/
theorem C7_service_eq_name (load3 : GoStr → Option Oas3T) (parse2 : GoStr → Option Swg2T)
    (path : GoStr) (readResult : Option GoStr) (spec : SwaggerSpec)
    (h : parseSwaggerSpec load3 parse2 path readResult = (spec, none)) :
    spec.service = spec.name := by
  obtain ⟨data, -, hcase⟩ :=
    parseSwaggerSpec_success_cases load3 parse2 path readResult spec h
  rcases hcase with ⟨d, rfl⟩ | ⟨d, rfl⟩
  · simp [buildSpecV3]
  · simp [buildSpecV2]

/-- Witness for C7 at a concrete successful parse. -/
theorem C7_service_eq_name_witness : sampleSpecV3.service = sampleSpecV3.name :=
  C7_service_eq_name sampleLoad3 failParse2 "a.yaml".toList (some "x".toList)
    sampleSpecV3 (by decide)

/-- Claim C6: for every record produced by a successful parse, the projected
`info.title`/`info.version`/`info.description` carry no surrounding
whitespace (they are fixed points of trimming), and the optional contact and
license objects are omitted when absent from the source document. -/
theorem C6_info_trimmed_and_omitted (load3 : GoStr → Option Oas3T)
    (parse2 : GoStr → Option Swg2T) (path : GoStr) (readResult : Option GoStr)
    (spec : SwaggerSpec)
    (h : parseSwaggerSpec load3 parse2 path readResult = (spec, none)) :
    (∀ v, spec.openAPI3Doc = some v →
      (trimSpace v.info.title = v.info.title ∧ trimSpace v.info.version = v.info.version ∧
        trimSpace v.info.description = v.info.description) ∧
      ∃ d, spec.docV3 = some d ∧
        ((d.info.bind (fun i => i.contact)) = none → v.info.contact = none) ∧
        ((d.info.bind (fun i => i.license)) = none → v.info.license = none)) ∧
    (∀ w, spec.swagger2Doc = some w →
      (trimSpace w.info.title = w.info.title ∧ trimSpace w.info.version = w.info.version ∧
        trimSpace w.info.description = w.info.description) ∧
      ∃ d, spec.docV2 = some d ∧
        ((d.info.bind (fun i => i.contact)) = none → w.info.contact = none) ∧
        ((d.info.bind (fun i => i.license)) = none → w.info.license = none)) := by
  obtain ⟨data, -, hcase⟩ :=
    parseSwaggerSpec_success_cases load3 parse2 path readResult spec h
  rcases hcase with ⟨d, rfl⟩ | ⟨d, rfl⟩
  · constructor
    · intro v hv
      obtain ⟨v0, hv0, hinfo, hdoc⟩ := buildSpecV3_openAPI3Doc_info path data d
      rw [hv0] at hv
      have hvv : v0 = v := by injection hv
      subst hvv
      rw [hinfo]
      obtain ⟨h1, h2, h3, h4, h5⟩ := toInfoFromOAS3_spec d.info
      exact ⟨⟨h1, h2, h3⟩, d, hdoc, h4, h5⟩
    · intro w hw
      rw [(buildSpecV3_views path data d).2] at hw
      cases hw
  · constructor
    · intro v hv
      rw [(buildSpecV2_views path data d).2] at hv
      cases hv
    · intro w hw
      obtain ⟨w0, hw0, hinfo, hdoc⟩ := buildSpecV2_swagger2Doc_info path data d
      rw [hw0] at hw
      have hww : w0 = w := by injection hw
      subst hww
      rw [hinfo]
      obtain ⟨h1, h2, h3, h4, h5⟩ := toInfoFromOAS2_spec d.info
      exact ⟨⟨h1, h2, h3⟩, d, hdoc, h4, h5⟩

/-- Witness for C6 at a concrete successful parse: the title of the sample
record's OpenAPI 3 view is a fixed point of trimming. -/
theorem C6_info_trimmed_and_omitted_witness :
    trimSpace sampleViewV3.info.title = sampleViewV3.info.title :=
  (((C6_info_trimmed_and_omitted sampleLoad3 failParse2 "a.yaml".toList
    (some "x".toList) sampleSpecV3 (by decide)).1 sampleViewV3 (by decide)).1).1

/-- Every record in the discovery result comes from a successful parse of a
visited file. -/
theorem mem_discover_exists (load3 : GoStr → Option Oas3T) (parse2 : GoStr → Option Swg2T)
    (files : List (GoStr × Option GoStr)) (s : SwaggerSpec)
    (hs : s ∈ discoverSwaggerSpecs load3 parse2 files) :
    ∃ f ∈ files, parseSwaggerSpec load3 parse2 f.1 f.2 = (s, none) := by
  unfold discoverSwaggerSpecs at hs
  rw [(List.perm_insertionSort serviceLE _).mem_iff] at hs
  unfold collectSpecs at hs
  obtain ⟨f, hf, hfs⟩ := List.mem_filterMap.mp hs
  refine ⟨f, hf, ?_⟩
  rcases hres : parseSwaggerSpec load3 parse2 f.1 f.2 with ⟨s', e⟩
  rw [hres] at hfs
  by_cases hext : specFileExts.contains (toLowerStr (extGo f.1)) = true
  · rw [if_pos hext] at hfs
    cases e with
    | none =>
      have hss : s' = s := by simpa using hfs
      rw [hss]
    | some err => simp at hfs
  · rw [if_neg hext] at hfs
    cases hfs

/-- Claim C2: for every record returned by `DiscoverSwaggerSpecs`, exactly one of
the two version-specific views is populated: either the OpenAPI 3 view is
present and the Swagger 2.0 view is nil, or the other way round — never both
and never neither. -/
theorem C2_views_mutually_exclusive (load3 : GoStr → Option Oas3T)
    (parse2 : GoStr → Option Swg2T) (files : List (GoStr × Option GoStr))
    (s : SwaggerSpec) (hs : s ∈ discoverSwaggerSpecs load3 parse2 files) :
    (s.openAPI3Doc.isSome = true ∧ s.swagger2Doc = none) ∨
      (s.swagger2Doc.isSome = true ∧ s.openAPI3Doc = none) := by
  obtain ⟨f, -, hp⟩ := mem_discover_exists load3 parse2 files s hs
  obtain ⟨data, -, hcase⟩ := parseSwaggerSpec_success_cases load3 parse2 f.1 f.2 s hp
  rcases hcase with ⟨d, rfl⟩ | ⟨d, rfl⟩
  · exact Or.inl (buildSpecV3_views f.1 data d)
  · exact Or.inr (buildSpecV2_views f.1 data d)

/-- Witness for C2: the record discovered from the sample file has its
OpenAPI 3 view populated and its Swagger 2.0 view nil. -/
theorem C2_views_mutually_exclusive_witness :
    (sampleSpecV3.openAPI3Doc.isSome = true ∧ sampleSpecV3.swagger2Doc = none) ∨
      (sampleSpecV3.swagger2Doc.isSome = true ∧ sampleSpecV3.openAPI3Doc = none) :=
  C2_views_mutually_exclusive sampleLoad3 failParse2 sampleFiles sampleSpecV3 (by decide)

/-- Claim C4: the list returned by `DiscoverSwaggerSpecs` is sorted ascending by
the `service` field: every pair of adjacent records `(a, b)` satisfies
`a.service ≤ b.service` under lexicographic string comparison. -/
theorem C4_discover_sorted (load3 : GoStr → Option Oas3T) (parse2 : GoStr → Option Swg2T)
    (files : List (GoStr × Option GoStr)) :
    List.Chain' (fun a b : SwaggerSpec => a.service ≤ b.service)
      (discoverSwaggerSpecs load3 parse2 files) :=
  List.Pairwise.chain' (List.sorted_insertionSort serviceLE (collectSpecs load3 parse2 files))

/-- The code's `looksLikeJSON` agrees with the spec's formulation (strip the
leading space/tab/CR/LF characters, then look for `{` or `[`). -/
theorem looksLikeJSON_iff (data : GoStr) : looksLikeJSON data = true ↔ startsJSONAfterStrip data := by
  have hpred : (fun c => c == ' ' || c == '\n' || c == '\r' || c == '\t')
      = (fun c => c == ' ' || c == '\t' || c == '\r' || c == '\n') := by
    funext c
    cases h1 : c == ' ' <;> cases h2 : c == '\n' <;> cases h3 : c == '\r' <;>
      cases h4 : c == '\t' <;> rfl
  unfold looksLikeJSON startsJSONAfterStrip
  rw [hpred]
  simp [Bool.or_eq_true]

/-- Claim C5: `detectFormatFromExtOrContent` always returns a value (`"json"` or
`"yaml"`): `"json"` when the lower-cased extension is `.json`; `"yaml"` for
`.yaml`/`.yml`; otherwise `"json"` exactly when the content, after stripping
leading spaces, tabs, CRs and LFs, starts with `{` or `[`, and `"yaml"` in
every other case. -/
theorem C5_detectFormat_total (path data : GoStr) :
    (detectFormatFromExtOrContent path data = "json".toList ∨
      detectFormatFromExtOrContent path data = "yaml".toList) ∧
    (detectFormatFromExtOrContent path data = "json".toList ↔
      (toLowerStr (extGo path) = ".json".toList ∨
        (toLowerStr (extGo path) ≠ ".json".toList ∧ toLowerStr (extGo path) ≠ ".yaml".toList ∧
          toLowerStr (extGo path) ≠ ".yml".toList ∧ startsJSONAfterStrip data))) := by
  unfold detectFormatFromExtOrContent
  by_cases h1 : toLowerStr (extGo path) = ".json".toList
  · rw [if_pos h1]
    refine ⟨Or.inl rfl, ?_⟩
    simp [h1]
  · rw [if_neg h1]
    by_cases h2 : toLowerStr (extGo path) = ".yaml".toList ∨ toLowerStr (extGo path) = ".yml".toList
    · rw [if_pos h2]
      refine ⟨Or.inr rfl, ?_⟩
      constructor
      · intro hEq; exact absurd hEq (by decide)
      · rintro (h | ⟨-, hy, hm, -⟩)
        · exact absurd h h1
        · rcases h2 with h2 | h2
          exacts [absurd h2 hy, absurd h2 hm]
    · rw [if_neg h2]
      push_neg at h2
      by_cases h3 : looksLikeJSON data = true
      · rw [if_pos h3]
        refine ⟨Or.inl rfl, ?_⟩
        constructor
        · intro _
          exact Or.inr ⟨h1, h2.1, h2.2, (looksLikeJSON_iff data).mp h3⟩
        · intro _; rfl
      · rw [if_neg h3]
        refine ⟨Or.inr rfl, ?_⟩
        constructor
        · intro hEq; exact absurd hEq (by decide)
        · rintro (h | ⟨-, -, -, hjson⟩)
          · exact absurd h h1
          · exact absurd ((looksLikeJSON_iff data).mpr hjson) h3

/-- Claim C8: with an empty title, the path-based fallback on
`apis/user-service/openapi.yaml` produces the `user-service` segment with the
hyphen replaced by a space and each word title-cased: `"User Service"`. -/
theorem C8_deriveName_user_service :
    deriveName "".toList "apis/user-service/openapi.yaml".toList = "User Service".toList := by
  decide

/-! ### Supporting lemmas: non-emptiness of formatServiceName / deriveName -/

theorem formatServiceName_ne_nil (s : GoStr) (h : hasSolidChar s) :
    formatServiceName s ≠ [] := by
  obtain ⟨c, hc, hsp, hdash, hund⟩ := h
  have hc1 : c ∈ replaceChar '-' ' ' s :=
    List.mem_map.mpr ⟨c, hc, by rw [if_neg hdash]⟩
  have hc2 : c ∈ replaceChar '_' ' ' (replaceChar '-' ' ' s) :=
    List.mem_map.mpr ⟨c, hc1, by rw [if_neg hund]⟩
  have hflds : fields (replaceChar '_' ' ' (replaceChar '-' ' ' s)) ≠ [] :=
    fields_ne_nil _ c hc2 hsp
  have hwne : ∀ w ∈ fields (replaceChar '_' ' ' (replaceChar '-' ' ' s)), w ≠ [] :=
    fun w hw => (mem_fields_spec _ w hw).1
  have hjoin : joinWords (fields (replaceChar '_' ' ' (replaceChar '-' ' ' s))) ≠ [] :=
    joinWords_ne_nil _ hflds hwne
  unfold formatServiceName
  intro hcontra
  apply hjoin
  have h0 := congrArg List.length hcontra
  simp only [titleCaseGo, titleWordLoop_length, List.length_nil] at h0
  exact List.length_eq_zero.mp h0

theorem scanApiDirs_succ (parts : List GoStr) (i : Nat) :
    scanApiDirs parts (i + 1) =
      if apiDirNames.contains (toLowerStr (parts.getD (i + 1) [])) then
        (if !isGenericDir (toLowerStr (parts.getD i [])) then some (parts.getD i [])
          else scanApiDirs parts i)
      else scanApiDirs parts i := rfl

theorem scanApiDirs_eq_some (parts : List GoStr) :
    ∀ n cand, scanApiDirs parts n = some cand →
      ∃ j, j < parts.length - 1 ∧ cand = parts.getD j [] := by
  intro n
  induction n with
  | zero => intro cand h; simp [scanApiDirs] at h
  | succ i ih =>
    intro cand h
    rw [scanApiDirs_succ] at h
    by_cases hA : apiDirNames.contains (toLowerStr (parts.getD (i + 1) [])) = true
    · rw [if_pos hA] at h
      by_cases hG : (!isGenericDir (toLowerStr (parts.getD i []))) = true
      · rw [if_pos hG] at h
        have hlt : i + 1 < parts.length := by
          by_contra hge
          have hdef : parts.getD (i + 1) [] = [] := by
            rw [List.getD_eq_getElem?_getD, List.getElem?_eq_none (by omega)]
            rfl
          rw [hdef] at hA
          exact absurd hA (by decide)
        have hcand : cand = parts.getD i [] := by
          injection h
          · exact (by assumption : parts.getD i [] = cand).symm
        exact ⟨i, by omega, hcand⟩
      · rw [if_neg hG] at h
        exact ih cand h
    · rw [if_neg hA] at h
      exact ih cand h

theorem getD_mem_dropLast (l : List GoStr) (j : Nat) (hj : j < l.length - 1) :
    l.getD j [] ∈ l.dropLast := by
  have h3 : j < l.dropLast.length := by rw [List.length_dropLast]; exact hj
  have h2 : l.dropLast[j]? = l[j]? := by rw [List.getElem?_dropLast, if_pos hj]
  rw [List.getD_eq_getElem?_getD, ← h2, List.getElem?_eq_getElem h3]
  simp only [Option.getD_some]
  exact List.getElem_mem h3

/-- Claim C1 counterexample: the claim "deriveName returns a non-empty string for
every non-empty path, regardless of title" fails at title `"-"` and the
non-empty path `"a.yaml"`: the hyphen-only title wins, the hyphen becomes a
space, `Fields` collapses it away, and the empty string is returned. -/
theorem C1_deriveName_counterexample :
    deriveName "-".toList "a.yaml".toList = [] ∧ "a.yaml".toList ≠ [] := by
  decide

/-- Claim C1, amended: `deriveName` is a total function that never fails, and it
returns a non-empty string whenever every candidate the fallback chain can
select contains at least one character other than `-`, `_` and whitespace:
the trimmed title (when non-empty), the path segments other than the last,
and the filename stripped of its extension.  (Candidates consisting only of
hyphens, underscores and whitespace — or an extension-only filename — are
collapsed to the empty string by `formatServiceName`, which is what the
counterexample exhibits.) -/
theorem C1_deriveName_nonempty_amended (title path : GoStr)
    (htitle : trimSpace title ≠ [] → hasSolidChar (trimSpace title))
    (hsegs : ∀ w ∈ ((cleanGo path).splitOnP (fun c => c == pathSep)).dropLast, hasSolidChar w)
    (hfile : hasSolidChar (trimSuffix (baseGo (cleanGo path)) (extGo (baseGo (cleanGo path))))) :
    deriveName title path ≠ [] := by
  unfold deriveName
  by_cases ht : trimSpace title ≠ []
  · rw [if_pos ht]
    exact formatServiceName_ne_nil _ (htitle ht)
  · rw [if_neg ht]
    dsimp only
    cases hscan : scanApiDirs ((cleanGo path).splitOnP (fun c => c == pathSep))
        (((cleanGo path).splitOnP (fun c => c == pathSep)).length - 1) with
    | some cand =>
      simp only [hscan]
      obtain ⟨j, hj, rfl⟩ := scanApiDirs_eq_some _ _ cand hscan
      exact formatServiceName_ne_nil _ (hsegs _ (getD_mem_dropLast _ j hj))
    | none =>
      simp only [hscan]
      by_cases hpar : ((cleanGo path).splitOnP (fun c => c == pathSep)).length ≥ 2 ∧
          (!isGenericDir (toLowerStr (((cleanGo path).splitOnP (fun c => c == pathSep)).getD
            (((cleanGo path).splitOnP (fun c => c == pathSep)).length - 2) []))) = true
      · rw [if_pos hpar]
        refine formatServiceName_ne_nil _ (hsegs _ (getD_mem_dropLast _ _ ?_))
        omega
      · rw [if_neg hpar]
        exact formatServiceName_ne_nil _ hfile

/-- Witness for the amended C1 at a concrete title and path. -/
theorem C1_deriveName_nonempty_amended_witness :
    deriveName "My API".toList "connector/loyalty/spec/loyalty.yaml".toList ≠ [] :=
  C1_deriveName_nonempty_amended "My API".toList "connector/loyalty/spec/loyalty.yaml".toList
    (by decide) (by decide) (by decide)

/-! ### C10: idempotence of formatServiceName -/

theorem fields_replace_solid (s : GoStr) :
    ∀ w ∈ fields (replaceChar '_' ' ' (replaceChar '-' ' ' s)),
      w ≠ [] ∧ ∀ c ∈ w, solidChar c := by
  intro w hw
  obtain ⟨hne, hprop⟩ := mem_fields_spec _ w hw
  refine ⟨hne, fun c hc => ?_⟩
  obtain ⟨hspace, hmem⟩ := hprop c hc
  have hnund : c ≠ '_' := by
    rcases mem_replaceChar '_' ' ' _ c hmem with h | ⟨-, h⟩
    · rw [h]; decide
    · exact h
  have hndash : c ≠ '-' := by
    rcases mem_replaceChar '_' ' ' _ c hmem with h | ⟨h', -⟩
    · rw [h]; decide
    · rcases mem_replaceChar '-' ' ' s c h' with h | ⟨-, h⟩
      · rw [h]; decide
      · exact h
  exact ⟨hspace, hndash, hnund⟩

theorem formatServiceName_of_titled_words (ws : List GoStr)
    (hsolid : ∀ w ∈ ws, w ≠ [] ∧ ∀ c ∈ w, solidChar c) :
    formatServiceName (joinWords (ws.map (titleWordLoop false))) =
      joinWords (ws.map (titleWordLoop false)) := by
  have hsolid' : ∀ w' ∈ ws.map (titleWordLoop false), w' ≠ [] ∧ ∀ c ∈ w', solidChar c := by
    intro w' hw'
    obtain ⟨w, hw, rfl⟩ := List.mem_map.mp hw'
    constructor
    · intro hnil
      have hl := titleWordLoop_length w false
      rw [hnil] at hl
      exact (hsolid w hw).1 (List.length_eq_zero.mp hl.symm)
    · exact fun c hc => titleWordLoop_solid w false (fun d hd => (hsolid w hw).2 d hd) c hc
  have hchars : ∀ c ∈ joinWords (ws.map (titleWordLoop false)), c ≠ '-' ∧ c ≠ '_' := by
    intro c hc
    rcases mem_joinWords _ c hc with h | ⟨w', hw', hcw⟩
    · rw [h]; decide
    · exact ⟨((hsolid' w' hw').2 c hcw).2.1, ((hsolid' w' hw').2 c hcw).2.2⟩
  unfold formatServiceName
  rw [replaceChar_eq_self '-' ' ' _ (fun c hc => (hchars c hc).1)]
  rw [replaceChar_eq_self '_' ' ' _ (fun c hc => (hchars c hc).2)]
  rw [fields_joinWords _ (fun w' hw' =>
    ⟨(hsolid' w' hw').1, fun c hc => ((hsolid' w' hw').2 c hc).1⟩)]
  rw [titleCaseGo_joinWords, List.map_map]
  congr 1
  exact List.map_congr_left (fun w _ => titleWordLoop_idem w false)

/-- Claim C10: `formatServiceName` is idempotent: replacing `-`/`_` with spaces,
collapsing whitespace runs, trimming and English title-casing reach a fixed
point after one application. -/
theorem C10_formatServiceName_idempotent (s : GoStr) :
    formatServiceName (formatServiceName s) = formatServiceName s := by
  have hform : formatServiceName s =
      joinWords ((fields (replaceChar '_' ' ' (replaceChar '-' ' ' s))).map
        (titleWordLoop false)) := by
    unfold formatServiceName
    exact titleCaseGo_joinWords _
  rw [hform]
  exact formatServiceName_of_titled_words _ (fields_replace_solid s)


end Webswags
